import Mathlib

/-!
Shallow embedding of a single-tape deterministic Turing machine simulator
(files `tape.py` and `turing_machine.py`), together with proofs of the
behavioural properties stated in its design specification.

Python dictionaries are embedded as association lists with unique keys:
`dictInsert` replaces the value in place when the key is present (as a
Python dict does) and appends otherwise, `dictErase` removes the entry,
and `dictLookup` finds the value for a key.  Machine integers are `Int`
(Python integers are unbounded, so no wrap-around is modelled).  Code
that raises an exception is embedded with `Except String`.
-/

/-- Lookup in an association list, mirroring `dict.get`. -/
def dictLookup {α β : Type} [DecidableEq α] : List (α × β) → α → Option β
  | [], _ => none
  | (k, v) :: rest, k0 => if k = k0 then some v else dictLookup rest k0

/-- Insertion mirroring `d[k] = v` on a Python dict: replace in place if the
key is present, append otherwise. -/
def dictInsert {α β : Type} [DecidableEq α] : List (α × β) → α → β → List (α × β)
  | [], k0, v0 => [(k0, v0)]
  | (k, v) :: rest, k0, v0 =>
    if k = k0 then (k0, v0) :: rest else (k, v) :: dictInsert rest k0 v0

/-- Deletion mirroring `del d[k]` on a Python dict with unique keys. -/
def dictErase {α β : Type} [DecidableEq α] : List (α × β) → α → List (α × β)
  | [], _ => []
  | (k, v) :: rest, k0 => if k = k0 then rest else (k, v) :: dictErase rest k0

/-- The tape of `tape.py`: blank symbol, sparse integer-indexed cell
mapping, and head position. -/
structure Tape where
  blank_symbol : String
  cells : List (Int × String)
  head : Int
deriving DecidableEq

/-- Cells produced by the `for i, ch in enumerate(input_string)` loop of
`Tape.load_input`, starting at index `i`. -/
def cellsOfChars : List Char → Int → List (Int × String)
  | [], _ => []
  | c :: cs, i => (i, String.singleton c) :: cellsOfChars cs (i + 1)

/-- `Tape.load_input`: clear the cells, store each character of the input
at its index, and reset the head to 0. -/
def Tape.load_input (t : Tape) (input_string : String) : Tape :=
  { t with cells := cellsOfChars input_string.toList 0, head := 0 }

/-- `Tape.read`: the symbol under the head, defaulting to the blank. -/
def Tape.read (t : Tape) : String :=
  (dictLookup t.cells t.head).getD t.blank_symbol

/-- `Tape.write`: delete the cell when writing the blank over a stored
cell, otherwise store the symbol at the head position. -/
def Tape.write (t : Tape) (symbol : String) : Tape :=
  if symbol = t.blank_symbol ∧ (dictLookup t.cells t.head).isSome then
    { t with cells := dictErase t.cells t.head }
  else
    { t with cells := dictInsert t.cells t.head symbol }

/-- The `direction.upper()` call of `Tape.move`: uppercase every
character (faithful for the ASCII directions the machine uses). -/
def strUpper (s : String) : String := ⟨s.toList.map Char.toUpper⟩

/-- `Tape.move`: uppercase the direction, then move left on L, right on R,
stay on S, and raise `ValueError` otherwise. -/
def Tape.move (t : Tape) (direction : String) : Except String Tape :=
  let d := strUpper direction
  if d = "L" then .ok { t with head := t.head - 1 }
  else if d = "R" then .ok { t with head := t.head + 1 }
  else if d = "S" then .ok t
  else .error ("Direccion de movimiento invalida: " ++ direction)

/-- `Tape._used_indices`: the minimal range covering the stored cells and
the head (just the head when no cell is stored). -/
def Tape.used_indices (t : Tape) : Int × Int :=
  match t.cells with
  | [] => (t.head, t.head)
  | _ :: _ =>
    let ks := t.cells.map Prod.fst
    (ks.foldl min t.head, ks.foldl max t.head)

/-- `Tape.get_view`: the symbols over the used range (blank where unset)
and the head index relative to the start of that range. -/
def Tape.get_view (t : Tape) : List String × Int :=
  let mm := t.used_indices
  let symbols := (List.range (mm.2 - mm.1 + 1).toNat).map
    (fun (k : Nat) => (dictLookup t.cells (mm.1 + (k : Int))).getD t.blank_symbol)
  (symbols, t.head - mm.1)

/-- `Tape.get_string`: the view symbols joined into one string. -/
def Tape.get_string (t : Tape) : String :=
  String.join t.get_view.1

/-- The `Transition` dataclass of `turing_machine.py`. -/
structure Transition where
  next_state : String
  write_symbol : String
  move : String
deriving DecidableEq

/-- The `RunResult` dataclass of `turing_machine.py`. -/
structure RunResult where
  input_string : String
  accepted : Bool
  final_state : String
  final_tape : String
  ids : List String
deriving DecidableEq

/-- The `TuringMachine` object after a successful `__init__`. -/
structure TuringMachine where
  states : List String
  input_alphabet : List String
  tape_alphabet : List String
  initial_state : String
  accept_states : List String
  transitions : List ((String × String) × Transition)
  blank_symbol : String
  name : String
deriving DecidableEq

/-- `TuringMachine.__init__`: store the fields and validate that the
initial state is a state, the accept states are states, and the blank is
in the tape alphabet, raising `ValueError` otherwise. -/
def mkTuringMachine (states input_alphabet tape_alphabet : List String)
    (initial_state : String) (accept_states : List String)
    (transitions : List ((String × String) × Transition))
    (blank_symbol : String) (name : String) : Except String TuringMachine :=
  if initial_state ∈ states then
    if accept_states ⊆ states then
      if blank_symbol ∈ tape_alphabet then
        .ok ⟨states, input_alphabet, tape_alphabet, initial_state,
             accept_states, transitions, blank_symbol, name⟩
      else .error "El simbolo blanco debe estar en el alfabeto de cinta."
    else .error "Hay estados de aceptacion que no estan en el conjunto de estados."
  else .error ("Estado inicial invalido: " ++ initial_state)

/-- `TuringMachine._format_id`: the view symbols concatenated, with the
bracketed state name prefixed to the symbol at the head index. -/
def format_id (tape : Tape) (state : String) : String :=
  let vw := tape.get_view
  String.join (vw.1.enum.map
    (fun p => if (p.1 : Int) = vw.2 then "[" ++ state ++ "]" ++ p.2 else p.2))

/-- The sentinel appended to `ids` when the step limit is reached. -/
def step_limit_msg : String := ">>> Límite de pasos alcanzado, posible lazo infinito."

/-- The `RunResult` built at the end of `TuringMachine.run`. -/
def mkRunResult (M : TuringMachine) (input_string : String) (tape : Tape)
    (current_state : String) (ids : List String) : RunResult :=
  { input_string := input_string
    accepted := decide (current_state ∈ M.accept_states)
    final_state := current_state
    final_tape := tape.get_string
    ids := ids }

/-- The `while` loop of `TuringMachine.run`, with explicit state and a
fuel bound: `none` means the fuel ran out before the loop halted. -/
def runFrom (M : TuringMachine) (input_string : String) (max_steps : Option Int) :
    Nat → Tape → String → List String → Nat → Option (Except String RunResult)
  | 0, _, _, _, _ => none
  | fuel + 1, tape, current_state, ids, steps =>
    match dictLookup M.transitions (current_state, tape.read) with
    | none => some (.ok (mkRunResult M input_string tape current_state ids))
    | some transition =>
      match (tape.write transition.write_symbol).move transition.move with
      | .error e => some (.error e)
      | .ok tape2 =>
        match max_steps with
        | some m =>
          if ((steps + 1 : Nat) : Int) ≥ m then
            some (.ok (mkRunResult M input_string tape2 transition.next_state
              ((ids ++ [format_id tape2 transition.next_state]) ++ [step_limit_msg])))
          else
            runFrom M input_string max_steps fuel tape2 transition.next_state
              (ids ++ [format_id tape2 transition.next_state]) (steps + 1)
        | none =>
          runFrom M input_string max_steps fuel tape2 transition.next_state
            (ids ++ [format_id tape2 transition.next_state]) (steps + 1)

/-- `TuringMachine.run`: fresh tape, load the input, record the initial
instantaneous description, then iterate the loop. -/
def TuringMachine.run (M : TuringMachine) (input_string : String)
    (max_steps : Option Int) (fuel : Nat) : Option (Except String RunResult) :=
  let tape := (Tape.mk M.blank_symbol [] 0).load_input input_string
  runFrom M input_string max_steps fuel tape M.initial_state
    [format_id tape M.initial_state] 0

/-- A YAML scalar-or-list field of a transition rule. -/
inductive YamlField where
  | scalar : String → YamlField
  | list : List String → YamlField
deriving DecidableEq

/-- One entry of the `transitions` list in the YAML configuration. -/
structure Rule where
  state : String
  read : YamlField
  write : YamlField
  move : String
  next : String
deriving DecidableEq

/-- The `read_symbols` list computed for a rule in `from_yaml_config`. -/
def Rule.readSymbols (t : Rule) : List String :=
  match t.read with
  | .list l => l
  | .scalar a => [a]

/-- The `write_symbols` list computed for a rule in `from_yaml_config`: a
scalar write is replicated to the length of the read list. -/
def Rule.writeSymbols (t : Rule) : List String :=
  match t.write with
  | .list l => l
  | .scalar a => List.replicate t.readSymbols.length a

/-- The inner loop of `from_yaml_config`: check each read/write pair
against the tape alphabet and insert the expanded transition. -/
def addPairs (tape_alphabet : List String) (state next_state move : String) :
    List (String × String) → List ((String × String) × Transition) →
    Except String (List ((String × String) × Transition))
  | [], transitions => .ok transitions
  | (r_sym, w_sym) :: rest, transitions =>
    if r_sym ∈ tape_alphabet then
      if w_sym ∈ tape_alphabet then
        addPairs tape_alphabet state next_state move rest
          (dictInsert transitions (state, r_sym)
            ⟨next_state, w_sym, move⟩)
      else .error ("Simbolo de escritura no esta en el alfabeto de cinta: " ++ w_sym)
    else .error ("Simbolo de lectura no esta en el alfabeto de cinta: " ++ r_sym)

/-- The outer loop of `from_yaml_config` over the rule list, accumulating
the expanded transition dictionary. -/
def buildTransitions (tape_alphabet : List String) :
    List Rule → List ((String × String) × Transition) →
    Except String (List ((String × String) × Transition))
  | [], transitions => .ok transitions
  | t :: rest, transitions =>
    if t.readSymbols.length ≠ t.writeSymbols.length then
      .error ("Transicion inconsistente, state=" ++ t.state)
    else
      match addPairs tape_alphabet t.state t.next t.move
          (t.readSymbols.zip t.writeSymbols) transitions with
      | .error e => .error e
      | .ok transitions2 => buildTransitions tape_alphabet rest transitions2

/-- The `mt:` section of a configuration as consumed by
`from_yaml_config` (`blank_symbol` is optional, defaulting to B). -/
structure MTConfig where
  states : List String
  input_alphabet : List String
  tape_alphabet : List String
  initial_state : String
  accept_states : List String
  transitions : List Rule
  blank_symbol : Option String
deriving DecidableEq

/-- `TuringMachine.from_yaml_config`: expand the rule list into the
transition dictionary and call the constructor. -/
def from_yaml_config (conf : MTConfig) : Except String TuringMachine :=
  let blank_symbol := match conf.blank_symbol with
    | some b => b
    | none => "B"
  match buildTransitions conf.tape_alphabet conf.transitions [] with
  | .error e => .error e
  | .ok transitions =>
    mkTuringMachine conf.states conf.input_alphabet conf.tape_alphabet
      conf.initial_state conf.accept_states transitions blank_symbol "MT"

/-- The example machine of the specification: states q0 and qf, tape
alphabet a and B, blank B, initial q0, accepting qf, one transition
(q0, a) to (qf, a, S). -/
def exampleMachine : TuringMachine :=
  ⟨["q0", "qf"], ["a"], ["a", "B"], "q0", ["qf"],
   [(("q0", "a"), ⟨"qf", "a", "S"⟩)], "B", "MT"⟩

/-- C6: on the example machine, input a runs one transition into qf and
halts, with ids formed by prefixing the bracketed state to the head
symbol, final tape a, and acceptance true. -/
theorem run_input_a_result :
    TuringMachine.run exampleMachine "a" none 2 =
      some (.ok ⟨"a", true, "qf", "a", ["[q0]a", "[qf]a"]⟩) := by
  rfl

/-- C3 counterexample: on the example machine with empty input the run
halts immediately, but the final tape is the blank symbol B, not the
empty string claimed. -/
theorem run_empty_input_final_tape_cex :
    TuringMachine.run exampleMachine "" none 1 =
      some (.ok ⟨"", false, "q0", "B", ["[q0]B"]⟩) ∧ ("B" : String) ≠ "" := by
  exact ⟨rfl, by decide⟩

/-- C3 amended: on the example machine, the empty input halts right after
the initial configuration with ids equal to the single initial
instantaneous description, final state q0, not accepted, and final tape B
(the view collapses to the single blank cell under the head). -/
theorem run_empty_input_result :
    TuringMachine.run exampleMachine "" none 1 =
      some (.ok ⟨"", false, "q0", "B", ["[q0]B"]⟩) := by
  rfl

/-- C2: writing the blank symbol over an unset head position takes the
else branch of `Tape.write` and stores the blank in the cell mapping,
so the mapping differs from that of the untouched tape. -/
theorem write_blank_stores_blank_entry :
    (Tape.mk "B" [] 0).write "B" = Tape.mk "B" [(0, "B")] 0 ∧
      Tape.mk "B" [(0, "B")] 0 ≠ Tape.mk "B" [] 0 := by
  constructor
  · decide
  · decide

/-- C5 counterexample: the lowercase direction l is a value other than L,
R and S, yet `Tape.move` decrements the head and raises no error. -/
theorem move_lowercase_cex :
    (Tape.mk "B" [] 0).move "l" = .ok (Tape.mk "B" [] (-1)) ∧
      ("l" : String) ≠ "L" ∧ ("l" : String) ≠ "R" ∧ ("l" : String) ≠ "S" := by
  refine ⟨rfl, by decide, by decide, by decide⟩

/-- C1 counterexample: running the example machine on input a with
max_steps = 0 applies one transition before appending the sentinel: ids
has three entries and the final state is qf, not the initial q0. -/
theorem run_max_steps_zero_cex :
    TuringMachine.run exampleMachine "a" (some 0) 2 =
      some (.ok ⟨"a", true, "qf", "a", ["[q0]a", "[qf]a", step_limit_msg]⟩) ∧
      ("qf" : String) ≠ "q0" ∧
      ["[q0]a", "[qf]a", step_limit_msg] ≠ ["[q0]a", step_limit_msg] := by
  refine ⟨rfl, by decide, by decide⟩

/-- C4 counterexample: loading the empty string and reading the tape back
returns the blank symbol B, not the empty string. -/
theorem load_input_empty_roundtrip_cex :
    ((Tape.mk "B" [] 0).load_input "").get_string = "B" ∧ ("B" : String) ≠ "" := by
  constructor
  · decide
  · decide

/-- C5 amended: `Tape.move` uppercases the direction first, so a direction
whose uppercase form is L decrements the head, R increments it, S leaves
it unchanged, and any direction whose uppercase form is none of the three
raises an invalid-direction error. -/
theorem move_direction_spec (t : Tape) (d : String) :
    (strUpper d = "L" → t.move d = .ok { t with head := t.head - 1 }) ∧
    (strUpper d = "R" → t.move d = .ok { t with head := t.head + 1 }) ∧
    (strUpper d = "S" → t.move d = .ok t) ∧
    (strUpper d ≠ "L" → strUpper d ≠ "R" → strUpper d ≠ "S" →
      t.move d = .error ("Direccion de movimiento invalida: " ++ d)) := by
  refine ⟨?_, ?_, ?_, ?_⟩
  · intro h; simp [Tape.move, h]
  · intro h; simp [Tape.move, h]
  · intro h; simp [Tape.move, h]
  · intro h1 h2 h3; simp [Tape.move, h1, h2, h3]

/-- Witness for the amended C5 theorem at the direction x. -/
theorem move_direction_spec_witness :
    (Tape.mk "B" [] 0).move "x" = .error ("Direccion de movimiento invalida: " ++ "x") :=
  (move_direction_spec (Tape.mk "B" [] 0) "x").2.2.2 (by decide) (by decide) (by decide)

/-- C1 amended: `run` with max_steps = 0 is identical to max_steps = 1,
because the limit is only checked after a transition has been applied:
when a transition matches the initial configuration, exactly one
transition runs and ids is the initial id, the id after that step, and
the sentinel; when none matches, the run halts after the initial id alone
with no sentinel. -/
theorem run_max_steps_zero_spec (M : TuringMachine) (input : String) (fuel : Nat) :
    M.run input (some 0) fuel = M.run input (some 1) fuel ∧
    (∀ tr tape2,
      dictLookup M.transitions
        (M.initial_state, ((Tape.mk M.blank_symbol [] 0).load_input input).read) = some tr →
      (((Tape.mk M.blank_symbol [] 0).load_input input).write tr.write_symbol).move tr.move
        = .ok tape2 →
      1 ≤ fuel →
      M.run input (some 0) fuel =
        some (.ok (mkRunResult M input tape2 tr.next_state
          [format_id ((Tape.mk M.blank_symbol [] 0).load_input input) M.initial_state,
           format_id tape2 tr.next_state, step_limit_msg]))) ∧
    (dictLookup M.transitions
        (M.initial_state, ((Tape.mk M.blank_symbol [] 0).load_input input).read) = none →
      1 ≤ fuel →
      M.run input (some 0) fuel =
        some (.ok (mkRunResult M input ((Tape.mk M.blank_symbol [] 0).load_input input)
          M.initial_state
          [format_id ((Tape.mk M.blank_symbol [] 0).load_input input) M.initial_state]))) := by
  refine ⟨?_, ?_, ?_⟩
  · cases fuel with
    | zero => rfl
    | succ n =>
      simp only [TuringMachine.run, runFrom]
      cases hT : dictLookup M.transitions
          (M.initial_state, ((Tape.mk M.blank_symbol [] 0).load_input input).read) with
      | none => simp [hT]
      | some tr =>
        simp only [hT]
        cases hM : (((Tape.mk M.blank_symbol [] 0).load_input input).write tr.write_symbol).move
            tr.move with
        | error e => simp [hM]
        | ok tape2 => simp [hM]
  · intro tr tape2 hT hM hfuel
    cases fuel with
    | zero => omega
    | succ n =>
      simp only [TuringMachine.run, runFrom, hT, hM]
      norm_num
  · intro hT hfuel
    cases fuel with
    | zero => omega
    | succ n =>
      simp only [TuringMachine.run, runFrom, hT]

/-- Witness for the amended C1 theorem on the example machine. -/
theorem run_max_steps_zero_spec_witness :
    TuringMachine.run exampleMachine "a" (some 0) 2 =
      some (.ok (mkRunResult exampleMachine "a" (Tape.mk "B" [(0, "a")] 0) "qf"
        [format_id ((Tape.mk "B" [] 0).load_input "a") "q0",
         format_id (Tape.mk "B" [(0, "a")] 0) "qf", step_limit_msg])) :=
  (run_max_steps_zero_spec exampleMachine "a" 2).2.1 ⟨"qf", "a", "S"⟩
    (Tape.mk "B" [(0, "a")] 0) rfl rfl (by omega)

/-- Every `RunResult` the loop of `run` produces has its accepted flag
computed from membership of its final state in the accept states. -/
theorem runFrom_ok_accepted (M : TuringMachine) (input : String) (ms : Option Int)
    (fuel : Nat) :
    ∀ (tape : Tape) (st : String) (ids : List String) (steps : Nat) (res : RunResult),
      runFrom M input ms fuel tape st ids steps = some (.ok res) →
      res.accepted = decide (res.final_state ∈ M.accept_states) := by
  induction fuel with
  | zero => intro tape st ids steps res h; simp [runFrom] at h
  | succ n ih =>
    intro tape st ids steps res h
    rw [runFrom] at h
    split at h
    · simp only [Option.some.injEq, Except.ok.injEq] at h
      subst h
      simp [mkRunResult]
    · split at h
      · simp at h
      · split at h
        · split at h
          · simp only [Option.some.injEq, Except.ok.injEq] at h
            subst h
            simp [mkRunResult]
          · exact ih _ _ _ _ _ h
        · exact ih _ _ _ _ _ h

/-- C7: for every run that completes, the accepted flag of the result
equals membership of the final state in the accept states, whether the
run halted on a missing transition or on the step limit. -/
theorem accepted_iff_final_state_accepting (M : TuringMachine) (input : String)
    (ms : Option Int) (fuel : Nat) (res : RunResult)
    (h : M.run input ms fuel = some (.ok res)) :
    res.accepted = true ↔ res.final_state ∈ M.accept_states := by
  have h2 := runFrom_ok_accepted M input ms fuel _ _ _ _ _ h
  rw [h2]
  exact decide_eq_true_iff

/-- Witness for the C7 theorem on the example machine and input a. -/
theorem accepted_iff_final_state_accepting_witness :
    (RunResult.mk "a" true "qf" "a" ["[q0]a", "[qf]a"]).accepted = true ↔
      "qf" ∈ exampleMachine.accept_states :=
  accepted_iff_final_state_accepting exampleMachine "a" none 2
    (RunResult.mk "a" true "qf" "a" ["[q0]a", "[qf]a"]) rfl

/-- The minimum of the keys stored by `load_input`, folded from any
starting value. -/
theorem cellsOfChars_keys_min (l : List Char) : ∀ (k a : Int),
    ((cellsOfChars l k).map Prod.fst).foldl min a = if l = [] then a else min a k := by
  induction l with
  | nil => intro k a; simp [cellsOfChars]
  | cons c cs ih =>
    intro k a
    simp only [cellsOfChars, List.map_cons, List.foldl_cons, List.cons_ne_nil, if_false]
    rw [ih (k + 1) (min a k)]
    by_cases hcs : cs = []
    · simp [hcs]
    · rw [if_neg hcs, min_assoc, min_eq_left (by omega : (k : Int) ≤ k + 1)]

/-- The maximum of the keys stored by `load_input`, folded from any
starting value. -/
theorem cellsOfChars_keys_max (l : List Char) : ∀ (k a : Int),
    ((cellsOfChars l k).map Prod.fst).foldl max a =
      if l = [] then a else max a (k + l.length - 1) := by
  induction l with
  | nil => intro k a; simp [cellsOfChars]
  | cons c cs ih =>
    intro k a
    simp only [cellsOfChars, List.map_cons, List.foldl_cons, List.cons_ne_nil, if_false]
    rw [ih (k + 1) (max a k)]
    by_cases hcs : cs = []
    · simp [hcs]
    · rw [if_neg hcs, max_assoc, max_eq_right (by omega : (k : Int) ≤ k + 1 + cs.length - 1)]
      congr 1
      simp only [List.length_cons]
      push_cast
      ring

/-- Looking up position `k + j` in the cells loaded from a character list
starting at `k` yields character `j` of the list. -/
theorem dictLookup_cellsOfChars (l : List Char) : ∀ (k : Int) (j : Nat) (h : j < l.length),
    dictLookup (cellsOfChars l k) (k + (j : Int)) = some (String.singleton (l.get ⟨j, h⟩)) := by
  induction l with
  | nil => intro k j h; simp at h
  | cons c cs ih =>
    intro k j h
    cases j with
    | zero => simp [cellsOfChars, dictLookup]
    | succ j =>
      have hk : ¬ (k = k + ((j : Nat) + 1 : Nat)) := by push_cast; omega
      simp only [cellsOfChars, dictLookup, if_neg hk]
      have : k + (((j : Nat) + 1 : Nat) : Int) = (k + 1) + (j : Int) := by push_cast; ring
      rw [this, ih (k + 1) j (by simpa using Nat.lt_of_succ_lt_succ h)]
      rfl

/-- After loading a nonempty input the used range is exactly the loaded
positions 0 to length minus one. -/
theorem used_indices_load (t : Tape) (s : String) (h : s.toList ≠ []) :
    (t.load_input s).used_indices = (0, (s.toList.length : Int) - 1) := by
  obtain ⟨c, cs, hl⟩ := List.exists_cons_of_ne_nil h
  simp only [Tape.load_input, Tape.used_indices, hl]
  simp only [cellsOfChars]
  have hmin := cellsOfChars_keys_min (c :: cs) 0 0
  have hmax := cellsOfChars_keys_max (c :: cs) 0 0
  simp only [cellsOfChars, List.cons_ne_nil, if_false] at hmin hmax
  rw [hmin, hmax]
  have hlen : (0 : Int) ≤ 0 + ((c :: cs).length : Int) - 1 := by
    simp only [List.length_cons]
    push_cast
    omega
  rw [min_self, max_eq_right hlen]
  simp only [Prod.mk.injEq]
  exact ⟨trivial, by ring⟩

/-- Flattening a list of one-character lists gives back the characters. -/
theorem flatten_map_singleton (l : List Char) : (l.map (fun c => [c])).flatten = l := by
  induction l with
  | nil => rfl
  | cons c cs ih => simp [ih]

/-- Joining the singleton strings of a character list rebuilds the
string over those characters. -/
theorem join_singletons (l : List Char) : String.join (l.map String.singleton) = String.mk l := by
  apply String.ext
  simp only [String.data_join, List.map_map]
  have : (String.data ∘ String.singleton) = fun c => [c] := rfl
  rw [this, flatten_map_singleton]

/-- The view of a tape loaded with a nonempty input is exactly the input
characters with the head at relative position 0. -/
theorem get_view_load (t : Tape) (s : String) (h : s.toList ≠ []) :
    (t.load_input s).get_view = (s.toList.map String.singleton, 0) := by
  have hused := used_indices_load t s h
  have hload : t.load_input s = Tape.mk t.blank_symbol (cellsOfChars s.toList 0) 0 := rfl
  rw [hload] at hused ⊢
  simp only [Tape.get_view, hused]
  have hn : ((s.toList.length : Int) - 1 - 0 + 1).toNat = s.toList.length := by omega
  rw [hn]
  simp only [Prod.mk.injEq]
  refine ⟨?_, by norm_num⟩
  apply List.ext_getElem
  · simp
  · intro i h1 h2
    simp only [List.getElem_map, List.getElem_range]
    have hi : i < s.toList.length := by simpa using h2
    rw [dictLookup_cellsOfChars s.toList 0 i hi]
    rfl

/-- C4 amended: `load_input` followed by `get_string` with no mutation in
between returns the input exactly, blanks included, for every nonempty
input; for the empty input it returns the blank symbol, because the view
window collapses to the single (blank) cell under the head. -/
theorem load_input_get_string_roundtrip (t : Tape) (s : String) :
    (t.load_input s).get_string = if s = "" then t.blank_symbol else s := by
  by_cases hs : s = ""
  · subst hs
    rw [if_pos rfl]
    show String.join [t.blank_symbol] = t.blank_symbol
    show "" ++ t.blank_symbol = t.blank_symbol
    exact String.empty_append _
  · rw [if_neg hs]
    have hl : s.toList ≠ [] := by
      intro h0
      apply hs
      apply String.ext
      simpa [String.toList] using h0
    show String.join ((t.load_input s).get_view).1 = s
    rw [get_view_load t s hl]
    show String.join (s.toList.map String.singleton) = s
    rw [join_singletons]
    exact String.ext rfl

/-- C9: the constructor succeeds exactly when the initial state is a
state, the accept states are all states, and the blank symbol is in the
tape alphabet, and every machine it ever returns satisfies those
invariants. -/
theorem mk_validates_invariants (states ia ta : List String) (init : String)
    (acc : List String) (tr : List ((String × String) × Transition)) (b nm : String) :
    ((∃ M, mkTuringMachine states ia ta init acc tr b nm = .ok M) ↔
      (init ∈ states ∧ acc ⊆ states ∧ b ∈ ta)) ∧
    (∀ M, mkTuringMachine states ia ta init acc tr b nm = .ok M →
      M.initial_state ∈ M.states ∧ M.accept_states ⊆ M.states ∧
        M.blank_symbol ∈ M.tape_alphabet) := by
  by_cases h1 : init ∈ states
  · by_cases h2 : acc ⊆ states
    · by_cases h3 : b ∈ ta
      · refine ⟨⟨fun _ => ⟨h1, h2, h3⟩,
          fun _ => ⟨⟨states, ia, ta, init, acc, tr, b, nm⟩,
            by simp [mkTuringMachine, h1, h2, h3]⟩⟩, ?_⟩
        intro M hM
        simp only [mkTuringMachine, if_pos h1, if_pos h2, if_pos h3,
          Except.ok.injEq] at hM
        subst hM
        exact ⟨h1, h2, h3⟩
      · simp [mkTuringMachine, h1, h2, h3]
    · simp [mkTuringMachine, h1, h2]
  · simp [mkTuringMachine, h1]

/-- Witness for the C9 theorem: the example machine construction
succeeds and satisfies the invariants. -/
theorem mk_validates_invariants_witness :
    exampleMachine.initial_state ∈ exampleMachine.states ∧
      exampleMachine.accept_states ⊆ exampleMachine.states ∧
      exampleMachine.blank_symbol ∈ exampleMachine.tape_alphabet :=
  (mk_validates_invariants ["q0", "qf"] ["a"] ["a", "B"] "q0" ["qf"]
    [(("q0", "a"), ⟨"qf", "a", "S"⟩)] "B" "MT").2 exampleMachine (by rfl)

/-- C10: when two rules expand to the same (state, read) key, the builder
succeeds and the transition of the later rule silently overwrites the
earlier one in the machine's transition dictionary. -/
theorem later_rule_overwrites_earlier (states ia ta : List String) (init : String)
    (acc : List String) (st a w1 w2 m1 m2 n1 n2 : String)
    (ha : a ∈ ta) (hw1 : w1 ∈ ta) (hw2 : w2 ∈ ta)
    (hinit : init ∈ states) (hacc : acc ⊆ states) (hb : "B" ∈ ta) :
    ∃ M, from_yaml_config ⟨states, ia, ta, init, acc,
        [⟨st, .scalar a, .scalar w1, m1, n1⟩, ⟨st, .scalar a, .scalar w2, m2, n2⟩],
        none⟩ = .ok M ∧
      dictLookup M.transitions (st, a) = some ⟨n2, w2, m2⟩ := by
  refine ⟨⟨states, ia, ta, init, acc, [((st, a), ⟨n2, w2, m2⟩)], "B", "MT"⟩, ?_, ?_⟩
  · simp only [from_yaml_config, buildTransitions, Rule.readSymbols, Rule.writeSymbols,
      addPairs, dictInsert, mkTuringMachine, List.length_replicate, List.replicate,
      List.zip, List.zipWith, if_pos ha, if_pos hw1, if_pos hw2, if_pos hinit,
      if_pos hacc, if_pos hb]
    simp
  · simp [dictLookup]

/-- Witness for the C10 theorem: two concrete rules on the key (q0, a),
with the second rule's transition surviving. -/
theorem later_rule_overwrites_earlier_witness :
    ∃ M, from_yaml_config ⟨["q0", "q1"], ["a"], ["a", "B"], "q0", ["q1"],
        [⟨"q0", .scalar "a", .scalar "a", "R", "q0"⟩,
         ⟨"q0", .scalar "a", .scalar "B", "L", "q1"⟩], none⟩ = .ok M ∧
      dictLookup M.transitions ("q0", "a") = some ⟨"q1", "B", "L"⟩ :=
  later_rule_overwrites_earlier ["q0", "q1"] ["a"] ["a", "B"] "q0" ["q1"]
    "q0" "a" "a" "B" "R" "L" "q0" "q1" (by decide) (by decide) (by decide)
    (by decide) (by simp [List.subset_def]) (by decide)

/-- Looking up the freshly inserted key finds the new value. -/
theorem dictLookup_dictInsert_self {α β : Type} [DecidableEq α]
    (m : List (α × β)) (k : α) (v : β) : dictLookup (dictInsert m k v) k = some v := by
  induction m with
  | nil => simp [dictInsert, dictLookup]
  | cons p rest ih =>
    obtain ⟨k1, v1⟩ := p
    by_cases hk : k1 = k
    · simp [dictInsert, hk, dictLookup]
    · simp [dictInsert, hk, dictLookup, ih]

/-- Insertion leaves the lookup of every other key unchanged. -/
theorem dictLookup_dictInsert_ne {α β : Type} [DecidableEq α]
    (m : List (α × β)) (k k2 : α) (v : β) (h : k ≠ k2) :
    dictLookup (dictInsert m k v) k2 = dictLookup m k2 := by
  induction m with
  | nil => simp [dictInsert, dictLookup, h]
  | cons p rest ih =>
    obtain ⟨k1, v1⟩ := p
    by_cases hk : k1 = k
    · subst hk
      simp [dictInsert, dictLookup, h]
    · simp [dictInsert, hk, dictLookup, ih]

/-- What the inner loop of the builder stores: every key either keeps its
previous binding and is hit by no pair, or holds the transition of one of
the processed pairs (with that rule's next state and move). -/
theorem addPairs_ok_lookup (ta : List String) (st nx mv : String) :
    ∀ (pairs : List (String × String)) (acc d : List ((String × String) × Transition)),
      addPairs ta st nx mv pairs acc = .ok d →
      ∀ key, (dictLookup d key = dictLookup acc key ∧ ∀ p ∈ pairs, (st, p.1) ≠ key) ∨
        (∃ p ∈ pairs, key = (st, p.1) ∧ dictLookup d key = some ⟨nx, p.2, mv⟩) := by
  intro pairs
  induction pairs with
  | nil =>
    intro acc d h key
    simp only [addPairs, Except.ok.injEq] at h
    subst h
    exact Or.inl ⟨rfl, by simp⟩
  | cons p rest ih =>
    obtain ⟨r, w⟩ := p
    intro acc d h key
    simp only [addPairs] at h
    by_cases hr : r ∈ ta
    · rw [if_pos hr] at h
      by_cases hw : w ∈ ta
      · rw [if_pos hw] at h
        rcases ih (dictInsert acc (st, r) ⟨nx, w, mv⟩) d h key with
          ⟨heq, hnone⟩ | ⟨q, hq, hkey, hval⟩
        · by_cases hkr : key = (st, r)
          · subst hkr
            refine Or.inr ⟨(r, w), by simp, rfl, ?_⟩
            rw [heq, dictLookup_dictInsert_self]
          · refine Or.inl ⟨?_, ?_⟩
            · rw [heq, dictLookup_dictInsert_ne _ _ _ _ (fun he => hkr he.symm)]
            · intro q hq
              rcases List.mem_cons.mp hq with rfl | hq2
              · exact fun he => hkr he.symm
              · exact hnone q hq2
        · exact Or.inr ⟨q, List.mem_cons_of_mem _ hq, hkey, hval⟩
      · rw [if_neg hw] at h
        exact absurd h (by simp)
    · rw [if_neg hr] at h
      exact absurd h (by simp)

/-- The inner loop of the builder fails whenever some pair holds a read
or write symbol outside the tape alphabet. -/
theorem addPairs_error_of_bad (ta : List String) (st nx mv : String) :
    ∀ (pairs : List (String × String)) (acc : List ((String × String) × Transition)),
      (∃ p ∈ pairs, p.1 ∉ ta ∨ p.2 ∉ ta) →
      ∃ e, addPairs ta st nx mv pairs acc = .error e := by
  intro pairs
  induction pairs with
  | nil => intro acc h; simp at h
  | cons p rest ih =>
    obtain ⟨r, w⟩ := p
    intro acc h
    by_cases hr : r ∈ ta
    · by_cases hw : w ∈ ta
      · have hrest : ∃ p ∈ rest, p.1 ∉ ta ∨ p.2 ∉ ta := by
          rcases h with ⟨q, hq, hbad⟩
          rcases List.mem_cons.mp hq with rfl | hq2
          · simp [hr, hw] at hbad
          · exact ⟨q, hq2, hbad⟩
        rcases ih (dictInsert acc (st, r) ⟨nx, w, mv⟩) hrest with ⟨e, he⟩
        exact ⟨e, by simp [addPairs, hr, hw, he]⟩
      · exact ⟨"Simbolo de escritura no esta en el alfabeto de cinta: " ++ w,
          by simp [addPairs, hr, hw]⟩
    · exact ⟨"Simbolo de lectura no esta en el alfabeto de cinta: " ++ r,
        by simp [addPairs, hr]⟩

/-- C8: in the builder, read/write lists of unequal length are a
construction error; a scalar write with a list read behaves as the write
replicated to the read length; a successfully expanded rule yields one
transition per read symbol, all with the rule's next state and move; and
any expanded read or write symbol outside the tape alphabet makes
construction fail. -/
theorem builder_rule_expansion_spec (ta : List String) :
    (∀ (st mv nx : String) (rs ws : List String) (rest : List Rule)
        (acc : List ((String × String) × Transition)), rs.length ≠ ws.length →
      ∃ e, buildTransitions ta (⟨st, .list rs, .list ws, mv, nx⟩ :: rest) acc = .error e) ∧
    (∀ (st mv nx w : String) (rs : List String) (rest : List Rule)
        (acc : List ((String × String) × Transition)),
      buildTransitions ta (⟨st, .list rs, .scalar w, mv, nx⟩ :: rest) acc =
        buildTransitions ta
          (⟨st, .list rs, .list (List.replicate rs.length w), mv, nx⟩ :: rest) acc) ∧
    (∀ (t : Rule) (acc d : List ((String × String) × Transition)),
      buildTransitions ta [t] acc = .ok d →
      ∀ r ∈ t.readSymbols, ∃ w ∈ t.writeSymbols,
        dictLookup d (t.state, r) = some ⟨t.next, w, t.move⟩) ∧
    (∀ (t : Rule) (rest : List Rule) (acc : List ((String × String) × Transition)),
      (∃ p ∈ t.readSymbols.zip t.writeSymbols, p.1 ∉ ta ∨ p.2 ∉ ta) →
      ∃ e, buildTransitions ta (t :: rest) acc = .error e) := by
  refine ⟨?_, ?_, ?_, ?_⟩
  · intro st mv nx rs ws rest acc hlen
    refine ⟨"Transicion inconsistente, state=" ++ st, ?_⟩
    simp only [buildTransitions, Rule.readSymbols, Rule.writeSymbols]
    rw [if_pos hlen]
  · intro st mv nx w rs rest acc
    rfl
  · intro t acc d h r hr
    simp only [buildTransitions] at h
    split at h
    · exact absurd h (by simp)
    · rename_i hlen
      split at h
      · exact absurd h (by simp)
      · rename_i tr2 heq
        simp only [buildTransitions, Except.ok.injEq] at h
        subst h
        have hlen2 : t.readSymbols.length = t.writeSymbols.length := by
          by_contra hne
          exact hlen hne
        obtain ⟨i, hi, rfl⟩ := List.mem_iff_getElem.mp hr
        have hiw : i < t.writeSymbols.length := hlen2 ▸ hi
        have hzlen : i < (t.readSymbols.zip t.writeSymbols).length := by
          simp [List.length_zip]
          omega
        have hmem : (t.readSymbols[i], t.writeSymbols[i]) ∈
            t.readSymbols.zip t.writeSymbols := by
          have hz : (t.readSymbols.zip t.writeSymbols)[i] =
              (t.readSymbols[i], t.writeSymbols[i]) := List.getElem_zip
          rw [← hz]
          exact List.getElem_mem hzlen
        rcases addPairs_ok_lookup ta t.state t.next t.move
            (t.readSymbols.zip t.writeSymbols) acc tr2 heq
            (t.state, t.readSymbols[i]) with ⟨heq2, hnone⟩ | ⟨q, hq, hkey, hval⟩
        · exact absurd rfl (hnone (t.readSymbols[i], t.writeSymbols[i]) hmem)
        · exact ⟨q.2, (List.of_mem_zip hq).2, hval⟩
  · intro t rest acc hbad
    by_cases hlen : t.readSymbols.length ≠ t.writeSymbols.length
    · exact ⟨"Transicion inconsistente, state=" ++ t.state,
        by simp only [buildTransitions]; rw [if_pos hlen]⟩
    · obtain ⟨e, he⟩ := addPairs_error_of_bad ta t.state t.next t.move
        (t.readSymbols.zip t.writeSymbols) acc hbad
      refine ⟨e, ?_⟩
      simp only [buildTransitions]
      rw [if_neg hlen, he]

/-- Witness for the C8 theorem: a rule with a two-symbol read list and a
one-symbol write list is rejected. -/
theorem builder_rule_expansion_spec_witness :
    ∃ e, buildTransitions ["a", "B"]
      [⟨"q0", .list ["a", "B"], .list ["a"], "R", "q1"⟩] [] = .error e :=
  (builder_rule_expansion_spec ["a", "B"]).1 "q0" "R" "q1" ["a", "B"] ["a"] [] []
    (by decide)
